import Mathlib

/-!
Verification of the theme-tools repository: the BlockIdUsage check
(src/packages/theme-check-common/src/checks/block-id-usage/index.ts) and the
theme dependency graph builder / serializer (spec sections 4.4-4.5, whose
implementation is exercised by src/packages/theme-graph/src/index.spec.ts).

Definitions come first, then the theorems about them.
-/

namespace ThemeTools

/-- Byte-offset position range into a file's raw text.  The source field
`end` is renamed `stop` because `end` is a Lean keyword; it denotes the
half-open upper bound, exactly as in the parser's `Position`. -/
structure Position where
  start : Nat
  stop : Nat
deriving DecidableEq, Repr

/-- Shallow embedding of the liquid-html-parser node shapes consumed by the
BlockIdUsage check.  The parser is an external collaborator ("consumed as a
black box producing typed nodes with position ranges"); this type mirrors the
node kinds the check's handlers dispatch on: `LiquidTag` (markup nodes first,
then children), `LiquidBranch`, `Comparison` (comparator, left, right),
`VariableLookup` (name, lookups), `String` literals and text. -/
inductive LiquidNode where
  | document (children : List LiquidNode) (position : Position)
  | liquidTag (name : String) (markup : List LiquidNode)
      (children : List LiquidNode) (position : Position)
  | liquidBranch (name : Option String) (markup : List LiquidNode)
      (children : List LiquidNode) (position : Position)
  | comparison (comparator : String) (left : LiquidNode) (right : LiquidNode)
      (position : Position)
  | variableLookup (name : Option String) (lookups : List LiquidNode)
      (position : Position)
  | stringLiteral (value : String) (position : Position)
  | textNode (value : String) (position : Position)

/-- The `position` property every parser node carries. -/
def LiquidNode.position : LiquidNode → Position
  | document _ p => p
  | liquidTag _ _ _ p => p
  | liquidBranch _ _ _ p => p
  | comparison _ _ _ p => p
  | variableLookup _ _ p => p
  | stringLiteral _ p => p
  | textNode _ p => p

/-- The test `node.type === NodeTypes.VariableLookup` from the source. -/
def LiquidNode.isVariableLookupType : LiquidNode → Bool
  | variableLookup _ _ _ => true
  | _ => false

/-- Translation of `isUsingBlockId` from block-id-usage/index.ts: the node is
a VariableLookup whose `name` is `'block'` and whose first lookup is a String
node of value `'id'`. -/
def isUsingBlockId : LiquidNode → Bool
  | .variableLookup name lookups _ =>
      name == some ("block") &&
        (match lookups with
         | .stringLiteral v _ :: _ => v == "id"
         | _ => false)
  | _ => false

/-- One reported diagnostic, as produced by `context.report` (the fields
`reportWarning` fills: message, startIndex, endIndex). -/
structure Offense where
  message : String
  startIndex : Nat
  endIndex : Nat
deriving DecidableEq, Repr

/-- The fixed message of `reportWarning` in block-id-usage/index.ts. -/
def warningMessage : String :=
  "The ID is dynamically generated by Shopify and is subject to change. You should avoid relying on a literal value of this ID."

/-- Translation of `reportWarning`: report the fixed message over the node's
position range. -/
def reportWarning (position : Position) : Offense :=
  ⟨warningMessage, position.start, position.stop⟩

/-- Translation of the `Comparison` handler of BlockIdUsage: report when the
comparator is `==`, the left operand has type VariableLookup and
`isUsingBlockId` holds of it. -/
def comparisonHandler (node : LiquidNode) : List Offense :=
  match node with
  | .comparison comparator left _ position =>
      if comparator == "==" && left.isVariableLookupType && isUsingBlockId left
      then [reportWarning position]
      else []
  | _ => []

/-- Translation of the `VariableLookup` handler of BlockIdUsage: the immediate
parent (`ancestors.at(-1)`) must be a LiquidTag named `case`, and the node
itself must satisfy `isUsingBlockId`. -/
def variableLookupHandler (ancestors : List LiquidNode) (node : LiquidNode) :
    List Offense :=
  match node with
  | .variableLookup _ _ _ =>
      match ancestors.getLast? with
      | some (.liquidTag parentName _ _ _) =>
          if parentName == "case" && isUsingBlockId node
          then [reportWarning node.position]
          else []
      | _ => []
  | _ => []

/-- The dispatch table `create(context)` returns: both handlers, each firing
only on its own node kind (the kind tests are built into the handlers). -/
def blockIdUsageHandlers (ancestors : List LiquidNode) (node : LiquidNode) :
    List Offense :=
  comparisonHandler node ++ variableLookupHandler ancestors node

mutual

/-- Visitor Dispatch Engine (spec section 4.1): pre-order traversal invoking
the handlers at each node with the ancestor chain, pushing the node before
descending into its children (markup nodes before body children, left operand
before right). -/
def visitNode (ancestors : List LiquidNode) (node : LiquidNode) : List Offense :=
  blockIdUsageHandlers ancestors node ++
    match node with
    | .document cs p =>
        visitMany (ancestors ++ [.document cs p]) cs
    | .liquidTag n mk cs p =>
        visitMany (ancestors ++ [.liquidTag n mk cs p]) mk ++
          visitMany (ancestors ++ [.liquidTag n mk cs p]) cs
    | .liquidBranch n mk cs p =>
        visitMany (ancestors ++ [.liquidBranch n mk cs p]) mk ++
          visitMany (ancestors ++ [.liquidBranch n mk cs p]) cs
    | .comparison c l r p =>
        visitNode (ancestors ++ [.comparison c l r p]) l ++
          visitNode (ancestors ++ [.comparison c l r p]) r
    | .variableLookup n lks p =>
        visitMany (ancestors ++ [.variableLookup n lks p]) lks
    | .stringLiteral _ _ => []
    | .textNode _ _ => []

/-- Traversal of a sibling list in document order. -/
def visitMany (ancestors : List LiquidNode) (nodes : List LiquidNode) :
    List Offense :=
  match nodes with
  | [] => []
  | c :: cs => visitNode ancestors c ++ visitMany ancestors cs

end

/-- Running the BlockIdUsage check over a parsed file: traverse from the root
with an empty ancestor chain and collect the offenses in reporting order. -/
def runBlockIdUsage (root : LiquidNode) : List Offense :=
  visitNode [] root

/-- Substring of a source text covered by a byte range `[a, b)`. -/
def sliceOf (s : String) (a b : Nat) : String :=
  String.mk ((s.toList.drop a).take (b - a))

/-- The source text of the comparison-form exemplar,
`{% if block.id == '123' %}No{% endif %}` (braces written as escapes). -/
def ifSource : String :=
  "\x7b% if block.id == '123' %\x7dNo\x7b% endif %\x7d"

/-- The parser's Comparison node for the condition of `ifSource`: comparator
`==`, left operand the VariableLookup `block.id` (lookup list holding the
String node `id`), right operand the String `'123'`; its position covers
offsets 6 to 23, exactly the substring `block.id == '123'`. -/
def ifComparison : LiquidNode :=
  .comparison "=="
    (.variableLookup (some ("block")) [.stringLiteral "id" ⟨12, 14⟩] ⟨6, 14⟩)
    (.stringLiteral "123" ⟨18, 23⟩)
    ⟨6, 23⟩

/-- The parse of `ifSource`: a document holding the `if` tag, whose markup is
the condition `ifComparison` and whose body branch holds the text `No`. -/
def ifAst : LiquidNode :=
  .document
    [.liquidTag "if" [ifComparison]
      [.liquidBranch none [] [.textNode "No" ⟨26, 28⟩] ⟨26, 28⟩]
      ⟨0, 39⟩]
    ⟨0, 39⟩

/-- The source text of the case-form exemplar,
`{% case block.id %}{% when '123' %}{% endcase %}` (braces escaped). -/
def caseSource : String :=
  "\x7b% case block.id %\x7d\x7b% when '123' %\x7d\x7b% endcase %\x7d"

/-- Position of the whole `case` tag in `caseSource` (the full 48-byte
construct, endcase included). -/
def caseTagPosition : Position := ⟨0, 48⟩

/-- The VariableLookup node `block.id` appearing as the markup of the `case`
tag, at offsets 8 to 16 of `caseSource`. -/
def caseLookup : LiquidNode :=
  .variableLookup (some ("block")) [.stringLiteral "id" ⟨14, 16⟩] ⟨8, 16⟩

/-- The `case` LiquidTag of `caseSource`: markup is `caseLookup`, children
hold the `when '123'` branch. -/
def caseTag : LiquidNode :=
  .liquidTag "case" [caseLookup]
    [.liquidBranch (some ("when")) [.stringLiteral "123" ⟨27, 32⟩] [] ⟨19, 35⟩]
    caseTagPosition

/-- The parse of `caseSource`. -/
def caseAst : LiquidNode := .document [caseTag] ⟨0, 48⟩

/-- The condition the spec states for the Comparison handler: comparator is
exactly `==` and the left operand is a VariableLookup on variable `block`
whose first lookup is the String `id`. -/
def BlockIdComparisonCondition (comparator : String) (left : LiquidNode) :
    Prop :=
  comparator = "==" ∧
    ∃ lookups p q rest,
      left = .variableLookup (some ("block")) lookups p ∧
      lookups = .stringLiteral "id" q :: rest

/-! ## Theme dependency graph

The theme-graph implementation lives outside the available sources; only its
unit test (src/packages/theme-graph/src/index.spec.ts) and the spec describe
it.  The definitions below are modelled from the spec (sections 3, 4.4, 4.5),
with the unit test as the authority wherever it pins concrete behavior. -/

/-- LiquidModuleKind, inferred from a file's directory location. -/
inductive LiquidModuleKind where
  | Template | Section | Snippet | Layout | Block | Asset
deriving DecidableEq, Repr

/-- Parse outcome of one module file. -/
inductive ParseStatus where
  | ok | unparsable
deriving DecidableEq, Repr

/-- ThemeModule from the spec's data model: normalized path (the unique key),
kind, dependency and dependent path sets (kept in insertion order), and the
parse status. -/
structure ThemeModule where
  path : String
  kind : LiquidModuleKind
  dependencies : List String
  dependents : List String
  parseStatus : ParseStatus
deriving DecidableEq, Repr

/-- ThemeGraph from the spec's data model.  The `modules` map is rendered as
a list in insertion (discovery) order, keyed by the unique `path` field;
`entryPoints` holds entry-point module paths. -/
structure ThemeGraph where
  root : String
  modules : List ThemeModule
  entryPoints : List String
deriving DecidableEq, Repr

/-- Whether the graph already holds a module for path `p`. -/
def hasModule (g : ThemeGraph) (p : String) : Bool :=
  g.modules.any fun m => m.path == p

/-- Modelled from the spec: module creation ("create the target ThemeModule
lazily if absent").  A fresh module is recorded at the end of the discovery
order with empty dependency/dependent sets; creating an already-present path
changes nothing (modules keys are unique). -/
def addModule (g : ThemeGraph) (p : String) (kind : LiquidModuleKind) :
    ThemeGraph :=
  if hasModule g p then g
  else { g with modules := g.modules ++ [⟨p, kind, [], [], .ok⟩] }

/-- Modelled from the spec and unit test: `templateModule(graph, path)` keeps
the given template path. -/
def templateModule (g : ThemeGraph) (p : String) : ThemeGraph :=
  addModule g p .Template

/-- Modelled from the unit test: `sectionModule(graph, 'section1')` produces
the module path `sections/section1.liquid`. -/
def sectionModule (g : ThemeGraph) (name : String) : ThemeGraph :=
  addModule g ("sections/" ++ name ++ ".liquid") .Section

/-- Modelled from the unit test: `snippetModule(graph, 'snippet1')` produces
the module path `snippets/snippet1.liquid`. -/
def snippetModule (g : ThemeGraph) (name : String) : ThemeGraph :=
  addModule g ("snippets/" ++ name ++ ".liquid") .Snippet

/-- The per-module effect of one `bind(source, target)` call: append `target`
to the source module's dependencies unless already present, and `source` to
the target module's dependents unless already present; every other module is
untouched. -/
def bindOne (source target : String) (m : ThemeModule) : ThemeModule :=
  let m1 :=
    if m.path == source && !(m.dependencies.contains target)
    then { m with dependencies := m.dependencies ++ [target] }
    else m
  if m1.path == target && !(m1.dependents.contains source)
  then { m1 with dependents := m1.dependents ++ [source] }
  else m1

/-- Modelled from the spec: `bind(source, target)` adds the symmetric
dependency edge.  It operates on two module objects, so it acts only when
both endpoints are present in the graph (the builder creates the target
lazily before binding); it is idempotent. -/
def bind (g : ThemeGraph) (source target : String) : ThemeGraph :=
  if hasModule g source && hasModule g target
  then { g with modules := g.modules.map (bindOne source target) }
  else g

/-- One serialized node, `id` and `kind`. -/
structure SerializedNode where
  id : String
  kind : LiquidModuleKind
deriving DecidableEq, Repr

/-- One serialized edge, `source` and `target`. -/
structure SerializedEdge where
  source : String
  target : String
deriving DecidableEq, Repr

/-- The serializer's transport-friendly output: nodes and edges. -/
structure SerializedGraph where
  nodes : List SerializedNode
  edges : List SerializedEdge
deriving DecidableEq, Repr

/-- Modelled from the spec and unit test: `serializeThemeGraph` flattens the
graph; nodes in module discovery order; edges listed per source module in
discovery order, each module's outgoing edges in the order its dependencies
were bound.  (The spec text calls the edge order "the order bind() calls
occurred", but the unit test of index.spec.ts fixes the per-source grouping
used here; the test is the authority.) -/
def serializeThemeGraph (g : ThemeGraph) : SerializedGraph :=
  { nodes := g.modules.map fun m => ⟨m.path, m.kind⟩
    edges := (g.modules.map fun m =>
        m.dependencies.map fun d => SerializedEdge.mk m.path d).flatten }

/-- The literal scenario of the serializer unit test, with module creations
and `bind` calls in exactly the order of the test's statements. -/
def scenarioGraph : ThemeGraph :=
  let g : ThemeGraph := { root := "/path/to/root", modules := [], entryPoints := [] }
  let g := templateModule g ("templates/index.liquid")
  let g := sectionModule g ("section1")
  let g := snippetModule g ("snippet1")
  let g := snippetModule g ("snippet2")
  let g := bind g ("templates/index.liquid") ("sections/section1.liquid")
  let g := bind g ("sections/section1.liquid") ("snippets/snippet1.liquid")
  let g := bind g ("sections/section1.liquid") ("snippets/snippet2.liquid")
  let g := sectionModule g ("section2")
  let g := bind g ("templates/index.liquid") ("sections/section2.liquid")
  { g with entryPoints := ["templates/index.liquid"] }

/-- The chronological order in which the `bind` calls of the scenario
occurred (template→section1, then section1→snippet1, section1→snippet2, and
last template→section2). -/
def scenarioBindCallOrder : List SerializedEdge :=
  [⟨"templates/index.liquid", "sections/section1.liquid"⟩,
   ⟨"sections/section1.liquid", "snippets/snippet1.liquid"⟩,
   ⟨"sections/section1.liquid", "snippets/snippet2.liquid"⟩,
   ⟨"templates/index.liquid", "sections/section2.liquid"⟩]

/-- Targets appended to the dependencies of the module at `p` by a sequence
of (source, target) bind calls, in chronological call order, skipping targets
already present (first occurrences only). -/
def newTargets (p : String) (deps : List String) :
    List (String × String) → List String
  | [] => []
  | (s, t) :: bs =>
      if p == s && !(deps.contains t)
      then t :: newTargets p (deps ++ [t]) bs
      else newTargets p deps bs

/-- Sources appended to the dependents of the module at `p` by a sequence of
(source, target) bind calls, in chronological call order, first occurrences
only. -/
def newSources (p : String) (dents : List String) :
    List (String × String) → List String
  | [] => []
  | (s, t) :: bs =>
      if p == t && !(dents.contains s)
      then s :: newSources p (dents ++ [s]) bs
      else newSources p dents bs

/-- The graph after a chronological sequence of bind calls. -/
def applyBinds (g : ThemeGraph) (bs : List (String × String)) : ThemeGraph :=
  bs.foldl (fun g2 st => bind g2 st.1 st.2) g

/-- The cumulative per-module effect of a sequence of bind calls. -/
def updatedModule (bs : List (String × String)) (m : ThemeModule) :
    ThemeModule :=
  { m with
    dependencies := m.dependencies ++ newTargets m.path m.dependencies bs
    dependents := m.dependents ++ newSources m.path m.dependents bs }

/-- The five modules of the serializer scenario, before any bind call. -/
def scenarioBase : ThemeGraph :=
  let g : ThemeGraph := { root := "/path/to/root", modules := [], entryPoints := [] }
  let g := templateModule g ("templates/index.liquid")
  let g := sectionModule g ("section1")
  let g := snippetModule g ("snippet1")
  let g := snippetModule g ("snippet2")
  sectionModule g ("section2")

/-- The scenario's bind calls as (source, target) pairs in call order. -/
def scenarioBinds : List (String × String) :=
  [("templates/index.liquid", "sections/section1.liquid"),
   ("sections/section1.liquid", "snippets/snippet1.liquid"),
   ("sections/section1.liquid", "snippets/snippet2.liquid"),
   ("templates/index.liquid", "sections/section2.liquid")]

/-- The graph operations a build performs on the shared ThemeGraph: module
creation (templates, sections, snippets) and `bind`. -/
inductive GraphOp where
  | addTemplate (p : String)
  | addSection (name : String)
  | addSnippet (name : String)
  | bindModules (source target : String)
deriving DecidableEq, Repr

/-- Interpretation of one graph operation. -/
def applyOp (g : ThemeGraph) : GraphOp → ThemeGraph
  | .addTemplate p => templateModule g p
  | .addSection n => sectionModule g n
  | .addSnippet n => snippetModule g n
  | .bindModules s t => bind g s t

/-- A fresh graph with no modules, as at the start of a build. -/
def emptyGraph (root : String) : ThemeGraph :=
  { root := root, modules := [], entryPoints := [] }

/-- The graph after a sequence of module-creation and bind operations. -/
def applyOps (root : String) (ops : List GraphOp) : ThemeGraph :=
  ops.foldl applyOp (emptyGraph root)

/-- Symmetric bookkeeping: every dependency entry has a module whose
dependents list points back. -/
def SymmetricBookkeeping (g : ThemeGraph) : Prop :=
  ∀ m ∈ g.modules, ∀ d ∈ m.dependencies,
    ∃ m2, m2 ∈ g.modules ∧ m2.path = d ∧ m.path ∈ m2.dependents

/-- The operation sequence of the serializer scenario. -/
def scenarioOps : List GraphOp :=
  [.addTemplate ("templates/index.liquid"),
   .addSection ("section1"),
   .addSnippet ("snippet1"),
   .addSnippet ("snippet2"),
   .bindModules ("templates/index.liquid") ("sections/section1.liquid"),
   .bindModules ("sections/section1.liquid") ("snippets/snippet1.liquid"),
   .bindModules ("sections/section1.liquid") ("snippets/snippet2.liquid"),
   .addSection ("section2"),
   .bindModules ("templates/index.liquid") ("sections/section2.liquid")]

/-! ## Theme graph builder (spec section 4.4) -/

/-- Modelled from the spec: one candidate module file as the builder sees it
through the parser — its path and parse result.  `none` models a parse
failure; `some refs` holds the statically resolvable reference targets
(render/include/section-style tags whose target argument is a static string
literal), already resolved to module paths.  Dynamic references create no
edge and are omitted. -/
structure ThemeFile where
  path : String
  parse : Option (List String)
deriving DecidableEq, Repr

/-- Modelled from the spec: LiquidModuleKind classified by directory
convention (templates/, sections/, snippets/, layout/, blocks/, assets/). -/
def moduleKindOf (p : String) : LiquidModuleKind :=
  if p.startsWith ("templates/") then .Template
  else if p.startsWith ("layout/") then .Layout
  else if p.startsWith ("sections/") then .Section
  else if p.startsWith ("blocks/") then .Block
  else if p.startsWith ("assets/") then .Asset
  else .Snippet

/-- File lookup through the File System Provider. -/
def lookupFile (theme : List ThemeFile) (p : String) : Option ThemeFile :=
  theme.find? fun f => f.path == p

/-- Lazy module creation with the kind inferred from the path. -/
def ensureModule (g : ThemeGraph) (p : String) : ThemeGraph :=
  addModule g p (moduleKindOf p)

/-- Record the parse status of the module at `p`. -/
def setParseStatus (g : ThemeGraph) (p : String) (st : ParseStatus) :
    ThemeGraph :=
  { g with modules := g.modules.map fun m =>
      if m.path == p then { m with parseStatus := st } else m }

/-- Modelled from the spec (section 4.4 steps 3-4): process one worklist
path.  Parse the file; on parse failure record the module with
`parseStatus = unparsable` and extract no references; otherwise create the
source module, then for each static reference lazily create the target and
`bind(source, target)`.  Returns the updated graph and the references to
enqueue; a path with no file yields no module and no references. -/
def processPath (theme : List ThemeFile) (g : ThemeGraph) (p : String) :
    ThemeGraph × List String :=
  match lookupFile theme p with
  | none => (g, [])
  | some f =>
      match f.parse with
      | none => (setParseStatus (ensureModule g p) p .unparsable, [])
      | some refs =>
          (refs.foldl (fun g2 t => bind (ensureModule g2 t) p t)
            (ensureModule g p), refs)

/-- First worklist entry that is still unvisited, together with the rest of
the worklist behind it; already-visited entries are dropped (spec: "for each
worklist path not yet visited"). -/
def findNext (unvisited : List String) : List String → Option (String × List String)
  | [] => none
  | p :: rest =>
      if unvisited.contains p then some (p, rest) else findNext unvisited rest

/-- Modelled from the spec: the worklist loop of section 4.4.  Every
iteration visits exactly one still-unvisited path, removes it from the
unvisited set, processes it and enqueues its references; the loop ends when
no worklist entry is unvisited.  The counter `n` bounds the number of visits;
since each visit removes one unvisited path, `n = unvisited.length` is exact
(the stability theorem below shows extra budget changes nothing).  The
returned list logs the visited (parsed) paths in visit order. -/
def buildLoop (theme : List ThemeFile) :
    Nat → List String → List String → ThemeGraph → List String →
      ThemeGraph × List String
  | 0, _, _, g, log => (g, log)
  | Nat.succ n, unvisited, worklist, g, log =>
      match findNext unvisited worklist with
      | none => (g, log)
      | some (p, rest) =>
          let pr := processPath theme g p
          buildLoop theme n (unvisited.erase p) (rest ++ pr.2) pr.1 (log ++ [p])

/-- Entry points: every Template or Layout module (spec step 2). -/
def entryPointPaths (theme : List ThemeFile) : List String :=
  (theme.map fun f => f.path).filter fun p =>
    moduleKindOf p == .Template || moduleKindOf p == .Layout

/-- Modelled from the spec: buildThemeGraph — enumerate the candidate module
files, seed the worklist with all of them, mark Templates/Layouts as entry
points, and drain the worklist.  Returns the graph and the visit log. -/
def buildThemeGraph (root : String) (theme : List ThemeFile) :
    ThemeGraph × List String :=
  let paths := theme.map fun f => f.path
  buildLoop theme paths.length paths paths
    { root := root, modules := [], entryPoints := entryPointPaths theme } []

/-- Snippet A of the cyclic fixture: renders snippet B. -/
def snippetA : ThemeFile := ⟨"snippets/a.liquid", some ["snippets/b.liquid"]⟩

/-- Snippet B of the cyclic fixture: renders snippet A. -/
def snippetB : ThemeFile := ⟨"snippets/b.liquid", some ["snippets/a.liquid"]⟩

/-- The mutually recursive theme: A renders B and B renders A. -/
def cyclicTheme : List ThemeFile := [snippetA, snippetB]

/-- The initial graph of a build over the cyclic theme. -/
def cyclicStart : ThemeGraph :=
  { root := "root", modules := [], entryPoints := entryPointPaths cyclicTheme }

/-- The unparsable fixture file. -/
def badFile : ThemeFile := ⟨"snippets/bad.liquid", none⟩

/-- A healthy template that renders the unparsable snippet. -/
def goodFile : ThemeFile :=
  ⟨"templates/good.liquid", some ["snippets/bad.liquid"]⟩

/-- A theme mixing an unparsable file with a parsable one. -/
def mixedTheme : List ThemeFile := [badFile, goodFile]

/-! ## Theorems: BlockIdUsage check -/

/-- Characterization of `isUsingBlockId` used by the handler theorems. -/
theorem isUsingBlockId_eq_true_iff (n : LiquidNode) :
    isUsingBlockId n = true ↔
      ∃ lookups p q rest,
        n = .variableLookup (some ("block")) lookups p ∧
        lookups = .stringLiteral "id" q :: rest := by
  cases n <;> try simp [isUsingBlockId]
  case variableLookup name lookups pos =>
    cases lookups with
    | nil => simp [isUsingBlockId]
    | cons hd tl => cases hd <;> simp [isUsingBlockId] <;> aesop

/-- C3: for the input `{% if block.id == '123' %}No{% endif %}`, the
BlockIdUsage check produces exactly one Offense, whose message is the fixed
warning string and whose position covers exactly the source substring
`block.id == '123'` (offsets 6 to 23). -/
theorem blockIdUsage_if_exemplar :
    runBlockIdUsage ifAst = [⟨warningMessage, 6, 23⟩] ∧
    sliceOf ifSource 6 23 = "block.id == '123'" := by
  exact ⟨rfl, rfl⟩

/-- C4: for the input `{% case block.id %}{% when '123' %}{% endcase %}`, the
BlockIdUsage check produces exactly one Offense whose position covers only the
substring `block.id` (offsets 8 to 16), a strictly shorter span than the full
case tag. -/
theorem blockIdUsage_case_exemplar :
    runBlockIdUsage caseAst = [⟨warningMessage, 8, 16⟩] ∧
    sliceOf caseSource 8 16 = "block.id" ∧
    16 - 8 < caseTagPosition.stop - caseTagPosition.start := by
  exact ⟨rfl, rfl, by decide⟩

/-- C9: the Comparison handler reports an offense if and only if the
comparator is exactly `==` and the left operand is a VariableLookup on
variable `block` whose first lookup is the String `id`; any other comparator,
or `block.id` appearing only as the right operand, reports nothing. -/
theorem comparisonHandler_fires_iff (comparator : String)
    (left right : LiquidNode) (p : Position) :
    comparisonHandler (.comparison comparator left right p) ≠ [] ↔
      BlockIdComparisonCondition comparator left := by
  unfold comparisonHandler BlockIdComparisonCondition
  constructor
  · intro h
    rw [ne_eq, ite_eq_right_iff] at h
    have hc : (comparator == "==" && left.isVariableLookupType &&
        isUsingBlockId left) = true := by
      by_contra hfalse
      exact h fun hcond => absurd hcond hfalse
    simp only [Bool.and_eq_true, beq_iff_eq] at hc
    exact ⟨hc.1.1, (isUsingBlockId_eq_true_iff left).mp hc.2⟩
  · rintro ⟨rfl, lookups, q, r, rest, rfl, rfl⟩
    simp [isUsingBlockId, LiquidNode.isVariableLookupType]

/-- C10: the VariableLookup handler reports an offense only when the last
element of the ancestor chain (the immediate parent) is a LiquidTag named
exactly `case`; in any other context it reports nothing. -/
theorem variableLookupHandler_requires_case_parent (ancestors : List LiquidNode)
    (node : LiquidNode) (h : variableLookupHandler ancestors node ≠ []) :
    ∃ markup children p,
      ancestors.getLast? = some (.liquidTag "case" markup children p) := by
  unfold variableLookupHandler at h
  cases node <;> try exact absurd rfl h
  case variableLookup name lookups pos =>
    cases hl : ancestors.getLast? with
    | none => rw [hl] at h; exact absurd rfl h
    | some parent =>
        rw [hl] at h
        cases parent <;> try exact absurd rfl h
        case liquidTag pn mk cs pp =>
          rw [ne_eq, ite_eq_right_iff] at h
          have hc : (pn == "case" &&
              isUsingBlockId (.variableLookup name lookups pos)) = true := by
            by_contra hfalse
            exact h fun hcond => absurd hcond hfalse
          simp only [Bool.and_eq_true, beq_iff_eq] at hc
          obtain ⟨rfl, -⟩ := hc
          exact ⟨mk, cs, pp, rfl⟩

/-- Witness for C10: the handler fires on the `block.id` lookup of the case
exemplar, whose ancestor chain ends at the `case` tag. -/
theorem variableLookupHandler_requires_case_parent_witness :
    ∃ markup children p,
      ([caseAst, caseTag] : List LiquidNode).getLast? =
        some (.liquidTag "case" markup children p) :=
  variableLookupHandler_requires_case_parent [caseAst, caseTag] caseLookup
    (by decide)

/-! ## Theorems: graph serialization and bind -/

/-- C1: in the literal scenario, `serializeThemeGraph` returns exactly 5
nodes and exactly the 4 edges (template,section1), (template,section2),
(section1,snippet1), (section1,snippet2) — no duplicates, no extras. -/
theorem serialize_literal_scenario :
    (serializeThemeGraph scenarioGraph).nodes.length = 5 ∧
    (serializeThemeGraph scenarioGraph).edges =
      [⟨"templates/index.liquid", "sections/section1.liquid"⟩,
       ⟨"templates/index.liquid", "sections/section2.liquid"⟩,
       ⟨"sections/section1.liquid", "snippets/snippet1.liquid"⟩,
       ⟨"sections/section1.liquid", "snippets/snippet2.liquid"⟩] := by
  exact ⟨rfl, rfl⟩

/-- Counterexample to C2: in the unit test's own scenario the serialized edge
list is not the chronological order of the `bind` calls — the edge
(template,section2) is listed second although its `bind` call came last. -/
theorem serialize_edges_not_bind_order :
    (serializeThemeGraph scenarioGraph).edges ≠ scenarioBindCallOrder := by
  decide

theorem bindOne_path (s t : String) (m : ThemeModule) :
    (bindOne s t m).path = m.path := by
  unfold bindOne
  dsimp only
  split <;> split <;> rfl

theorem hasModule_bind (g : ThemeGraph) (s t p : String) :
    hasModule (bind g s t) p = hasModule g p := by
  unfold bind
  split
  · simp [hasModule, List.any_map, Function.comp_def, bindOne_path]
  · rfl

theorem updatedModule_bindOne (s t : String) (bs : List (String × String))
    (m : ThemeModule) :
    updatedModule bs (bindOne s t m) = updatedModule ((s, t) :: bs) m := by
  by_cases hST : s = t
  · subst hST
    by_cases hA : m.path = s <;> by_cases hB : s ∈ m.dependencies <;>
      by_cases hD : s ∈ m.dependents <;>
        simp [bindOne, updatedModule, newTargets, newSources, hA, hB, hD]
  · by_cases hA : m.path = s <;> by_cases hB : t ∈ m.dependencies <;>
      by_cases hC : m.path = t <;> by_cases hD : s ∈ m.dependents <;>
        first
          | exact absurd (hA.symm.trans hC) hST
          | simp [bindOne, updatedModule, newTargets, newSources, hA, hB, hC,
              hD, hST, Ne.symm hST]

theorem applyBinds_modules (bs : List (String × String)) (g : ThemeGraph)
    (h : ∀ st ∈ bs, hasModule g st.1 = true ∧ hasModule g st.2 = true) :
    (applyBinds g bs).modules = g.modules.map (updatedModule bs) := by
  induction bs generalizing g with
  | nil =>
      have : ∀ m ∈ g.modules, updatedModule [] m = m := by
        intro m _
        simp [updatedModule, newTargets, newSources]
      simp [applyBinds, List.map_congr_left this]
  | cons st bs ih =>
      obtain ⟨h1, h2⟩ := h st (List.mem_cons_self st bs)
      have hrest : ∀ q ∈ bs, hasModule (bind g st.1 st.2) q.1 = true ∧
          hasModule (bind g st.1 st.2) q.2 = true := by
        intro q hq
        rw [hasModule_bind, hasModule_bind]
        exact h q (List.mem_cons_of_mem st hq)
      have step : applyBinds g (st :: bs) = applyBinds (bind g st.1 st.2) bs := rfl
      rw [step, ih (bind g st.1 st.2) hrest]
      unfold bind
      rw [if_pos (by rw [h1, h2]; rfl)]
      simp only [List.map_map]
      refine List.map_congr_left ?_
      intro m _
      have := updatedModule_bindOne st.1 st.2 bs m
      simpa [Function.comp_def] using this

/-- C2 (amended): for any sequence of bind calls over existing modules, the
serialized edge list is the per-source grouping: modules in discovery order,
and within one source module the targets in the chronological order of that
module's bind calls (first occurrences only) — no alphabetical re-sorting. -/
theorem serialize_edges_grouped (g : ThemeGraph) (bs : List (String × String))
    (h : ∀ st ∈ bs, hasModule g st.1 = true ∧ hasModule g st.2 = true) :
    (serializeThemeGraph (applyBinds g bs)).edges =
      (g.modules.map fun m =>
        (m.dependencies ++ newTargets m.path m.dependencies bs).map
          fun d => SerializedEdge.mk m.path d).flatten := by
  unfold serializeThemeGraph
  rw [applyBinds_modules bs g h]
  simp only [List.map_map]
  rfl

/-- Witness for the amended C2 at the scenario's modules and bind calls. -/
theorem serialize_edges_grouped_witness :
    (serializeThemeGraph (applyBinds scenarioBase scenarioBinds)).edges =
      (scenarioBase.modules.map fun m =>
        (m.dependencies ++ newTargets m.path m.dependencies scenarioBinds).map
          fun d => SerializedEdge.mk m.path d).flatten :=
  serialize_edges_grouped scenarioBase scenarioBinds (by decide)

theorem bindOne_idem (s t : String) (m : ThemeModule) :
    bindOne s t (bindOne s t m) = bindOne s t m := by
  by_cases hST : s = t
  · subst hST
    by_cases hA : m.path = s <;> by_cases hB : s ∈ m.dependencies <;>
      by_cases hD : s ∈ m.dependents <;>
        simp [bindOne, hA, hB, hD]
  · by_cases hA : m.path = s <;> by_cases hB : t ∈ m.dependencies <;>
      by_cases hC : m.path = t <;> by_cases hD : s ∈ m.dependents <;>
        first
          | exact absurd (hA.symm.trans hC) hST
          | simp [bindOne, hA, hB, hC, hD, hST, Ne.symm hST]

theorem bindOne_dependencies (s t : String) (m : ThemeModule) :
    (bindOne s t m).dependencies = m.dependencies ∨
      ((bindOne s t m).dependencies = m.dependencies ++ [t] ∧ m.path = s ∧
        t ∉ m.dependencies) := by
  by_cases hST : s = t
  · subst hST
    by_cases hA : m.path = s <;> by_cases hB : s ∈ m.dependencies <;>
      by_cases hD : s ∈ m.dependents <;>
        simp [bindOne, hA, hB, hD]
  · by_cases hA : m.path = s <;> by_cases hB : t ∈ m.dependencies <;>
      by_cases hC : m.path = t <;> by_cases hD : s ∈ m.dependents <;>
        first
          | exact absurd (hA.symm.trans hC) hST
          | simp [bindOne, hA, hB, hC, hD, hST, Ne.symm hST]

theorem count_mk_map (p a b : String) (l : List String) :
    (l.map fun d => SerializedEdge.mk p d).count ⟨a, b⟩ =
      if p = a then l.count b else 0 := by
  induction l with
  | nil => simp
  | cons x xs ih =>
      by_cases hpa : p = a
      · subst hpa
        by_cases hxb : x = b <;>
          simp [List.count_cons, ih, hxb, SerializedEdge.mk.injEq]
      · simp [List.count_cons, ih, hpa, SerializedEdge.mk.injEq]

theorem count_edges_flatten (ms : List ThemeModule) (a b : String) :
    ((ms.map fun m =>
        m.dependencies.map fun d => SerializedEdge.mk m.path d).flatten).count
        ⟨a, b⟩ =
      ((ms.filter fun m => m.path == a).map
        fun m => m.dependencies.count b).sum := by
  induction ms with
  | nil => simp
  | cons m ms ih =>
      by_cases h : m.path = a <;>
        simp [List.count_append, ih, count_mk_map, List.filter_cons, h]

theorem sum_count_filter_unique (ms : List ThemeModule) (a b : String)
    (hpaths : (ms.map fun m => m.path).Nodup)
    (hcount : ∀ m ∈ ms, m.path = a → m.dependencies.count b = 1)
    (hex : ∃ m ∈ ms, m.path = a) :
    ((ms.filter fun m => m.path == a).map
      fun m => m.dependencies.count b).sum = 1 := by
  induction ms with
  | nil => simp at hex
  | cons m ms ih =>
      simp only [List.map_cons, List.nodup_cons] at hpaths
      by_cases h : m.path = a
      · have hnone : ∀ x ∈ ms, ¬(x.path = a) := by
          intro x hx hxa
          exact hpaths.1 (by rw [h, ← hxa]; exact List.mem_map_of_mem _ hx)
        have hfilter : ms.filter (fun m2 => m2.path == a) = [] := by
          refine List.filter_eq_nil_iff.mpr ?_
          intro x hx
          simpa using hnone x hx
        simp [List.filter_cons, h, hfilter,
          hcount m (List.mem_cons_self m ms) h]
      · have hex2 : ∃ m2 ∈ ms, m2.path = a := by
          obtain ⟨m2, hm2, hm2a⟩ := hex
          rcases List.mem_cons.mp hm2 with rfl | hm2tl
          · exact absurd hm2a h
          · exact ⟨m2, hm2tl, hm2a⟩
        have ihr := ih hpaths.2
          (fun m2 hm2 => hcount m2 (List.mem_cons_of_mem m hm2)) hex2
        simp [List.filter_cons, h, ihr]

/-- C5: `bind` is idempotent — binding the same pair twice leaves the graph
exactly as binding it once — and in a well-formed graph (unique module paths,
duplicate-free dependency sets) the serialization after `bind g a b` holds
exactly one edge (a, b); dependency sets stay duplicate-free, so no duplicate
edge is ever created. -/
theorem bind_idempotent (g : ThemeGraph) (a b : String)
    (hnd : ∀ m ∈ g.modules, m.dependencies.Nodup)
    (hpaths : (g.modules.map fun m => m.path).Nodup) :
    bind (bind g a b) a b = bind g a b ∧
    (∀ m ∈ (bind g a b).modules, m.dependencies.Nodup) ∧
    (hasModule g a = true → hasModule g b = true →
      (serializeThemeGraph (bind g a b)).edges.count ⟨a, b⟩ = 1) := by
  refine ⟨?_, ?_, ?_⟩
  · by_cases hg : hasModule g a = true ∧ hasModule g b = true
    · have hguard : (hasModule g a && hasModule g b) = true := by
        rw [hg.1, hg.2]; rfl
      have hguard2 : (hasModule (bind g a b) a && hasModule (bind g a b) b)
          = true := by
        rw [hasModule_bind, hasModule_bind]; exact hguard
      unfold bind
      rw [if_pos hguard]
      rw [show (bind g a b) = { g with modules := g.modules.map (bindOne a b) }
        from by unfold bind; rw [if_pos hguard]] at hguard2
      rw [if_pos hguard2]
      simp [List.map_map, Function.comp_def, bindOne_idem]
    · have hguard : ¬((hasModule g a && hasModule g b) = true) := by
        simpa [Bool.and_eq_true] using hg
      have heq : bind g a b = g := by unfold bind; rw [if_neg hguard]
      rw [heq]
      exact heq
  · intro m hm
    unfold bind at hm
    split at hm
    · simp only [List.mem_map] at hm
      obtain ⟨m0, hm0, rfl⟩ := hm
      rcases bindOne_dependencies a b m0 with hsame | ⟨happ, _, hnotmem⟩
      · rw [hsame]; exact hnd m0 hm0
      · rw [happ]
        simp [List.nodup_append, hnd m0 hm0, hnotmem]
    · exact hnd m hm
  · intro ha hb
    have hguard : (hasModule g a && hasModule g b) = true := by
      rw [ha, hb]; rfl
    have hmods : (bind g a b).modules = g.modules.map (bindOne a b) := by
      unfold bind; rw [if_pos hguard]
    rw [serializeThemeGraph]
    rw [count_edges_flatten]
    rw [hmods]
    refine sum_count_filter_unique _ a b ?_ ?_ ?_
    · rw [List.map_map]
      have : ((fun m => m.path) ∘ bindOne a b) = fun m : ThemeModule => m.path := by
        funext m; exact bindOne_path a b m
      rw [this]
      exact hpaths
    · intro m hm hma
      simp only [List.mem_map] at hm
      obtain ⟨m0, hm0, rfl⟩ := hm
      have hm0a : m0.path = a := by rw [← bindOne_path a b m0]; exact hma
      rcases bindOne_dependencies a b m0 with hsame | ⟨happ, _, hnotmem⟩
      · have hbmem : b ∈ m0.dependencies := by
          by_contra hbnot
          have : (bindOne a b m0).dependencies = m0.dependencies ++ [b] := by
            simp [bindOne, hm0a, hbnot] <;> split <;> rfl
          rw [this] at hsame
          simp at hsame
        rw [hsame]
        exact List.count_eq_one_of_mem (hnd m0 hm0) hbmem
      · rw [happ]
        rw [List.count_append]
        rw [List.count_eq_zero_of_not_mem hnotmem]
        simp
    · have : ∃ m0 ∈ g.modules, m0.path = a := by
        have := List.any_eq_true.mp ha
        obtain ⟨m0, hm0, hpa⟩ := this
        exact ⟨m0, hm0, by simpa using hpa⟩
      obtain ⟨m0, hm0, hpa⟩ := this
      exact ⟨bindOne a b m0, List.mem_map_of_mem _ hm0,
        by rw [bindOne_path]; exact hpa⟩

/-- Witness for C5 at the scenario's modules, binding template→section1. -/
theorem bind_idempotent_witness :
    bind (bind scenarioBase ("templates/index.liquid")
        ("sections/section1.liquid"))
        ("templates/index.liquid") ("sections/section1.liquid") =
      bind scenarioBase ("templates/index.liquid")
        ("sections/section1.liquid") ∧
    (∀ m ∈ (bind scenarioBase ("templates/index.liquid")
        ("sections/section1.liquid")).modules, m.dependencies.Nodup) ∧
    (hasModule scenarioBase ("templates/index.liquid") = true →
      hasModule scenarioBase ("sections/section1.liquid") = true →
      (serializeThemeGraph (bind scenarioBase ("templates/index.liquid")
          ("sections/section1.liquid"))).edges.count
        ⟨"templates/index.liquid", "sections/section1.liquid"⟩ = 1) :=
  bind_idempotent scenarioBase ("templates/index.liquid")
    ("sections/section1.liquid") (by decide) (by decide)

/-! ## Theorems: symmetric bookkeeping -/

theorem bindOne_dependents_superset (s t : String) (m : ThemeModule) :
    m.dependents ⊆ (bindOne s t m).dependents := by
  by_cases hA : m.path = s <;> by_cases hB : t ∈ m.dependencies <;>
    by_cases hC : m.path = t <;> by_cases hD : s ∈ m.dependents <;>
      simp [bindOne, hA, hB, hC, hD, List.subset_def] <;>
        intro x hx <;> (repeat' split) <;> simp_all

theorem bindOne_dependents_self (s t : String) (m : ThemeModule)
    (h : m.path = t) : s ∈ (bindOne s t m).dependents := by
  by_cases hA : m.path = s <;> by_cases hB : t ∈ m.dependencies <;>
    by_cases hD : s ∈ m.dependents <;>
      simp [bindOne, hA, hB, hD, h] <;> (repeat' split) <;> simp_all

theorem symmetricBookkeeping_addModule (g : ThemeGraph) (p : String)
    (k : LiquidModuleKind) (h : SymmetricBookkeeping g) :
    SymmetricBookkeeping (addModule g p k) := by
  unfold addModule
  split
  · exact h
  · intro m hm d hd
    rcases List.mem_append.mp hm with hm0 | hnew
    · obtain ⟨m2, hm2, hm2p, hm2d⟩ := h m hm0 d hd
      exact ⟨m2, List.mem_append_left _ hm2, hm2p, hm2d⟩
    · simp at hnew
      subst hnew
      simp at hd

theorem symmetricBookkeeping_bind (g : ThemeGraph) (s t : String)
    (h : SymmetricBookkeeping g) : SymmetricBookkeeping (bind g s t) := by
  unfold bind
  split
  case isFalse => exact h
  case isTrue hguard =>
    have ht : hasModule g t = true := (Bool.and_eq_true _ _ |>.mp hguard).2
    have hex : ∃ mt, mt ∈ g.modules ∧ mt.path = t := by
      obtain ⟨mt, hmt, hp⟩ := List.any_eq_true.mp ht
      exact ⟨mt, hmt, by simpa using hp⟩
    obtain ⟨mt, hmt, hmtp⟩ := hex
    intro m hm d hd
    simp only [List.mem_map] at hm
    obtain ⟨m0, hm0, rfl⟩ := hm
    rcases bindOne_dependencies s t m0 with hsame | ⟨happ, hm0s, -⟩
    · rw [hsame] at hd
      obtain ⟨m2, hm2, hm2p, hm2d⟩ := h m0 hm0 d hd
      refine ⟨bindOne s t m2, List.mem_map_of_mem _ hm2, ?_, ?_⟩
      · rw [bindOne_path]; exact hm2p
      · rw [bindOne_path]
        exact bindOne_dependents_superset s t m2 hm2d
    · rw [happ] at hd
      rcases List.mem_append.mp hd with hold | hnew
      · obtain ⟨m2, hm2, hm2p, hm2d⟩ := h m0 hm0 d hold
        refine ⟨bindOne s t m2, List.mem_map_of_mem _ hm2, ?_, ?_⟩
        · rw [bindOne_path]; exact hm2p
        · rw [bindOne_path]
          exact bindOne_dependents_superset s t m2 hm2d
      · have hdt : d = t := by simpa using hnew
        refine ⟨bindOne s t mt, List.mem_map_of_mem _ hmt, ?_, ?_⟩
        · rw [bindOne_path, hmtp, hdt]
        · rw [bindOne_path, hm0s]
          exact bindOne_dependents_self s t mt hmtp

theorem symmetricBookkeeping_applyOps (root : String) (ops : List GraphOp) :
    SymmetricBookkeeping (applyOps root ops) := by
  have base : SymmetricBookkeeping (emptyGraph root) := by
    intro m hm
    simp [emptyGraph] at hm
  have step : ∀ (ops2 : List GraphOp) (g : ThemeGraph),
      SymmetricBookkeeping g → SymmetricBookkeeping (ops2.foldl applyOp g) := by
    intro ops2
    induction ops2 with
    | nil => intro g hg; exact hg
    | cons op ops2 ih =>
        intro g hg
        refine ih (applyOp g op) ?_
        cases op with
        | addTemplate p => exact symmetricBookkeeping_addModule g p _ hg
        | addSection n => exact symmetricBookkeeping_addModule g _ _ hg
        | addSnippet n => exact symmetricBookkeeping_addModule g _ _ hg
        | bindModules s t => exact symmetricBookkeeping_bind g s t hg
  exact step ops (emptyGraph root) base

/-- C7: after every sequence of module-creation and bind operations, each
serialized edge (a→b) has its target recorded among a's dependencies and its
source recorded among b's dependents (symmetric bookkeeping). -/
theorem edges_symmetric_bookkeeping (root : String) (ops : List GraphOp)
    (e : SerializedEdge)
    (he : e ∈ (serializeThemeGraph (applyOps root ops)).edges) :
    (∃ ma, ma ∈ (applyOps root ops).modules ∧ ma.path = e.source ∧
      e.target ∈ ma.dependencies) ∧
    (∃ mb, mb ∈ (applyOps root ops).modules ∧ mb.path = e.target ∧
      e.source ∈ mb.dependents) := by
  unfold serializeThemeGraph at he
  simp only [List.mem_flatten, List.mem_map] at he
  obtain ⟨l, ⟨m, hm, rfl⟩, hel⟩ := he
  obtain ⟨d, hd, rfl⟩ := List.mem_map.mp hel
  refine ⟨⟨m, hm, rfl, hd⟩, ?_⟩
  obtain ⟨m2, hm2, hm2p, hm2d⟩ :=
    symmetricBookkeeping_applyOps root ops m hm d hd
  exact ⟨m2, hm2, hm2p, hm2d⟩

/-- Witness for C7 at the scenario's first edge. -/
theorem edges_symmetric_bookkeeping_witness :
    (∃ ma, ma ∈ (applyOps ("/path/to/root") scenarioOps).modules ∧
      ma.path = "templates/index.liquid" ∧
      "sections/section1.liquid" ∈ ma.dependencies) ∧
    (∃ mb, mb ∈ (applyOps ("/path/to/root") scenarioOps).modules ∧
      mb.path = "sections/section1.liquid" ∧
      "templates/index.liquid" ∈ mb.dependents) :=
  edges_symmetric_bookkeeping ("/path/to/root") scenarioOps
    ⟨"templates/index.liquid", "sections/section1.liquid"⟩ (by decide)

/-! ## Theorems: builder termination and failure isolation -/

theorem findNext_mem (unvisited : List String) (worklist : List String)
    (p : String) (rest : List String)
    (h : findNext unvisited worklist = some (p, rest)) : p ∈ unvisited := by
  induction worklist with
  | nil => simp [findNext] at h
  | cons q qs ih =>
      rw [findNext] at h
      split at h
      case isTrue hc =>
        simp only [Option.some.injEq, Prod.mk.injEq] at h
        obtain ⟨rfl, rfl⟩ := h
        exact List.mem_of_elem_eq_true hc
      case isFalse => exact ih h

theorem findNext_nil (worklist : List String) :
    findNext [] worklist = none := by
  induction worklist with
  | nil => rfl
  | cons q qs ih => rw [findNext]; simpa using ih

/-- Fuel stability: once the visit counter covers the unvisited set, running
the loop with more budget changes nothing — the loop has genuinely finished
(this is the termination argument of the visited-set algorithm). -/
theorem buildLoop_stable (theme : List ThemeFile) (n : Nat) :
    ∀ (unvisited worklist : List String) (g : ThemeGraph) (log : List String),
      unvisited.length ≤ n →
      buildLoop theme (n + 1) unvisited worklist g log =
        buildLoop theme n unvisited worklist g log := by
  induction n with
  | zero =>
      intro u w g log hu
      have hnil : u = [] := List.length_eq_zero.mp (Nat.le_zero.mp hu)
      subst hnil
      rw [buildLoop, buildLoop, findNext_nil]
  | succ n ih =>
      intro u w g log hu
      rw [buildLoop, buildLoop]
      cases hf : findNext u w with
      | none => rfl
      | some pr =>
          have hp : pr.1 ∈ u := findNext_mem u w pr.1 pr.2 (by rw [hf])
          have hlen : (u.erase pr.1).length ≤ n := by
            rw [List.length_erase_of_mem hp]
            omega
          exact ih (u.erase pr.1) _ _ _ hlen

/-- C6: on the cyclic theme (snippet A renders B, B renders A) the build
terminates — any extra visit budget beyond the two discovered paths changes
nothing — and the resulting modules map holds exactly one entry for A and one
for B; the visit log shows each path parsed exactly once (the builder never
re-parses an already-visited path). -/
theorem buildThemeGraph_cyclic_terminates :
    (∀ extra : Nat,
      buildLoop cyclicTheme (2 + extra)
          ["snippets/a.liquid", "snippets/b.liquid"]
          ["snippets/a.liquid", "snippets/b.liquid"] cyclicStart [] =
        buildThemeGraph ("root") cyclicTheme) ∧
    ((buildThemeGraph ("root") cyclicTheme).1.modules.filter
        fun m => m.path == "snippets/a.liquid").length = 1 ∧
    ((buildThemeGraph ("root") cyclicTheme).1.modules.filter
        fun m => m.path == "snippets/b.liquid").length = 1 ∧
    (buildThemeGraph ("root") cyclicTheme).2 =
      ["snippets/a.liquid", "snippets/b.liquid"] ∧
    (buildThemeGraph ("root") cyclicTheme).2.Nodup := by
  refine ⟨?_, by decide, by decide, by decide, by decide⟩
  intro extra
  induction extra with
  | zero => rfl
  | succ k ih =>
      have hstep := buildLoop_stable cyclicTheme (2 + k)
        ["snippets/a.liquid", "snippets/b.liquid"]
        ["snippets/a.liquid", "snippets/b.liquid"] cyclicStart []
        (by simp only [List.length_cons, List.length_nil]; omega)
      have harith : 2 + (k + 1) = (2 + k) + 1 := by omega
      rw [harith, hstep]
      exact ih

/-- C8: when a file fails to parse, the processing step still records a
module for it with `parseStatus = unparsable` and extracts no references
(hence it contributes no outgoing edges); and a whole build over a theme
containing such a file runs to completion, recording the unparsable module
(with empty dependencies) alongside the successfully parsed one. -/
theorem unparsable_file_isolated (theme : List ThemeFile) (g : ThemeGraph)
    (p : String) (f : ThemeFile) (h1 : lookupFile theme p = some f)
    (h2 : f.parse = none) :
    ((processPath theme g p).2 = [] ∧
      ∃ m, m ∈ (processPath theme g p).1.modules ∧ m.path = p ∧
        m.parseStatus = .unparsable) ∧
    ((∃ mBad, mBad ∈ (buildThemeGraph ("root") mixedTheme).1.modules ∧
        mBad.path = "snippets/bad.liquid" ∧
        mBad.parseStatus = .unparsable ∧ mBad.dependencies = []) ∧
      (∃ mGood, mGood ∈ (buildThemeGraph ("root") mixedTheme).1.modules ∧
        mGood.path = "templates/good.liquid" ∧
        mGood.parseStatus = .ok ∧
        mGood.dependencies = ["snippets/bad.liquid"])) := by
  refine ⟨⟨?_, ?_⟩, by decide, by decide⟩
  · unfold processPath
    rw [h1]
    dsimp only
    rw [h2]
  · unfold processPath
    rw [h1]
    dsimp only
    rw [h2]
    dsimp only
    have hhas : hasModule (ensureModule g p) p = true := by
      unfold ensureModule addModule
      split
      case isTrue h => exact h
      case isFalse h => simp [hasModule]
    obtain ⟨m, hm, hp⟩ := List.any_eq_true.mp hhas
    have hp2 : m.path = p := by simpa using hp
    refine ⟨{ m with parseStatus := .unparsable }, ?_, by simpa using hp2, rfl⟩
    unfold setParseStatus
    simp only [List.mem_map]
    refine ⟨m, hm, ?_⟩
    rw [if_pos (by simpa using hp2)]

/-- Witness for C8 at the mixed theme's unparsable file. -/
theorem unparsable_file_isolated_witness :
    ((processPath mixedTheme (emptyGraph ("root")) ("snippets/bad.liquid")).2
        = [] ∧
      ∃ m, m ∈ (processPath mixedTheme (emptyGraph ("root"))
          ("snippets/bad.liquid")).1.modules ∧
        m.path = "snippets/bad.liquid" ∧
        m.parseStatus = .unparsable) ∧
    ((∃ mBad, mBad ∈ (buildThemeGraph ("root") mixedTheme).1.modules ∧
        mBad.path = "snippets/bad.liquid" ∧
        mBad.parseStatus = .unparsable ∧ mBad.dependencies = []) ∧
      (∃ mGood, mGood ∈ (buildThemeGraph ("root") mixedTheme).1.modules ∧
        mGood.path = "templates/good.liquid" ∧
        mGood.parseStatus = .ok ∧
        mGood.dependencies = ["snippets/bad.liquid"])) :=
  unparsable_file_isolated mixedTheme (emptyGraph ("root"))
    ("snippets/bad.liquid") badFile rfl rfl

end ThemeTools
